import Mathlib

/-!
Shallow embedding of the reporting core in
src/frontend/src/pages/Reports.js (FinSightAI-pro).

Numbers: JavaScript numbers that may be NaN are modelled as JsNum := Option Rat,
with none standing for NaN (parseFloat of an unparsable amount). Additions
propagate NaN; the idiom x || 0 coerces NaN, 0 and undefined to 0.
The exact rational arithmetic replaces IEEE floats, as the spec's tolerance
clauses allow.

JavaScript objects used as accumulators (categoryTotals, dailyTotals) are
modelled as association lists with object key semantics: updating an existing
key keeps its position, a new key is appended (string keys in insertion order).

Array.prototype.sort with a comparator is modelled as a stable insertion sort
(ECMAScript requires sort stability); the comparator (\x7b, a], [, b\x7d) => b - a
of the source is a strict before relation that holds when the left value is a
larger number, and never holds when either side is NaN (comparator result NaN
is treated as equal by the sort).
-/

namespace FinSight

/-- A JavaScript number that may be NaN: none is NaN, some q a finite value. -/
abbrev JsNum := Option ℚ

/-- JavaScript addition on possibly-NaN numbers: NaN propagates. -/
def jadd : JsNum → JsNum → JsNum
  | some a, some b => some (a + b)
  | _, _ => none

/-- JavaScript division of a possibly-NaN number by a (positive) count. -/
def jdivNat (a : JsNum) (n : ℕ) : JsNum :=
  a.map (fun q => q / (n : ℚ))

/-- The JavaScript idiom v || 0 applied to an object lookup result:
undefined (absent key) and NaN give 0, a finite number gives itself
(0 || 0 is 0, which is the value itself). -/
def orZero : Option JsNum → ℚ
  | some (some q) => q
  | _ => 0

/-- A calendar date (no time of day), as consumed by new Date(...)
in the source. -/
structure CalDate where
  year : ℕ
  month : ℕ
  day : ℕ
  deriving DecidableEq

/-- Model of Date.prototype.toLocaleDateString() for the en-US runtime
locale: "M/D/YYYY" without zero padding. -/
def toLocaleDateString (d : CalDate) : String :=
  Nat.repr d.month ++ "/" ++ Nat.repr d.day ++ "/" ++ Nat.repr d.year

/-- An expense record as consumed by Reports.js. The amount field holds the
result of parseFloat on the record's amount: none when the string is
unparsable (NaN), some q when it parses to the number q. -/
structure ExpenseRecord where
  id : ℕ
  amount : Option ℚ
  category : String
  date : CalDate
  description : String
  deriving DecidableEq

/-- Lookup in a JavaScript-object association list: none is undefined. -/
def alookup (m : List (String × JsNum)) (k : String) : Option JsNum :=
  match m with
  | [] => none
  | (k', v) :: t => if k' = k then some v else alookup t k

/-- Assignment obj[k] = v on a JavaScript-object association list:
an existing key keeps its position, a new key is appended. -/
def aset (m : List (String × JsNum)) (k : String) (v : JsNum) :
    List (String × JsNum) :=
  match m with
  | [] => [(k, v)]
  | (k', v') :: t => if k' = k then (k, v) :: t else (k', v') :: aset t k v

/-- One accumulation step obj[k] = (obj[k] || 0) + amount of the source. -/
def bump (m : List (String × JsNum)) (k : String) (amt : JsNum) :
    List (String × JsNum) :=
  aset m k (jadd (some (orZero (alookup m k))) amt)

/-- The derived report summary produced by processReportData. -/
structure ReportSummary where
  totalSpent : JsNum
  categoryTotals : List (String × JsNum)
  dailyTotals : List (String × JsNum)
  transactionCount : ℕ
  averageTransaction : JsNum
  deriving DecidableEq

/-- The body of the expenses.forEach callback in processReportData:
accumulate the parsed amount into the running total, the category map and
the daily map. -/
def processStep (acc : JsNum × List (String × JsNum) × List (String × JsNum))
    (e : ExpenseRecord) : JsNum × List (String × JsNum) × List (String × JsNum) :=
  (jadd acc.1 e.amount,
   bump acc.2.1 e.category e.amount,
   bump acc.2.2 (toLocaleDateString e.date) e.amount)

/-- processReportData of Reports.js (lines 189-213): a single pass over the
records; transactionCount is the input length and averageTransaction is
totalSpent / length when the list is non-empty, else 0. -/
def processReportData (expenses : List ExpenseRecord) : ReportSummary :=
  let acc := expenses.foldl processStep (some 0, [], [])
  { totalSpent := acc.1
    categoryTotals := acc.2.1
    dailyTotals := acc.2.2
    transactionCount := expenses.length
    averageTransaction :=
      if 0 < expenses.length then jdivNat acc.1 expenses.length else some 0 }

/-- Sum of the values of an accumulator object, as in the spec's
sum(categoryTotals.values()); NaN values poison the sum. -/
def sumVals (m : List (String × JsNum)) : JsNum :=
  m.foldr (fun p a => jadd p.2 a) (some 0)

/-- Sum of the values of an accumulator object as rationals, reading NaN
as 0 (the value it contributes after the next v || 0 coercion). -/
def qsum (m : List (String × JsNum)) : ℚ :=
  (m.map (fun p => (p.2).getD 0)).sum

/-- All values of an accumulator object are finite numbers (no NaN). -/
def allSome (m : List (String × JsNum)) : Prop :=
  ∀ p ∈ m, (p.2).isSome = true

/-- Sum of the parsed amounts of a record list, reading NaN as 0. -/
def amtsum (l : List ExpenseRecord) : ℚ :=
  (l.map (fun r => (r.amount).getD 0)).sum

/-- The accumulator fold of processReportData restricted to one of the two
maps, with the grouping key given by f. -/
def accMap (f : ExpenseRecord → String) (m : List (String × JsNum))
    (l : List ExpenseRecord) : List (String × JsNum) :=
  l.foldl (fun m r => bump m (f r) r.amount) m

/-! ### Array.prototype.sort, modelled as a stable insertion sort

The comparator argument lt a b is true when the comparator returns a negative
number on (a, b), i.e. a must come strictly before b. ECMAScript requires the
sort to be stable, so an element is inserted after every element it does not
strictly precede. -/

/-- Insert x into l, passing over every y that must stay strictly before x
(stability: x lands before any element that ties with it, and the elements
already in l came earlier in the scan). -/
def jsInsertBy {α : Type} (lt : α → α → Bool) (x : α) : List α → List α
  | [] => [x]
  | y :: ys => if lt y x then y :: jsInsertBy lt x ys else x :: y :: ys

/-- Stable sort with the strict before relation lt (model of
Array.prototype.sort with a comparator). -/
def jsSortBy {α : Type} (lt : α → α → Bool) : List α → List α
  | [] => []
  | x :: xs => jsInsertBy lt x (jsSortBy lt xs)

theorem jsInsertBy_perm {α : Type} (lt : α → α → Bool) (x : α) (l : List α) :
    (jsInsertBy lt x l).Perm (x :: l) := by
  induction l with
  | nil => simp [jsInsertBy]
  | cons y ys ih =>
      by_cases h : lt y x = true
      · simp only [jsInsertBy, h, if_true]
        exact (ih.cons y).trans (List.Perm.swap x y ys)
      · simp only [jsInsertBy, h, if_false]
        exact List.Perm.refl _

theorem jsSortBy_perm {α : Type} (lt : α → α → Bool) (l : List α) :
    (jsSortBy lt l).Perm l := by
  induction l with
  | nil => exact List.Perm.refl _
  | cons x xs ih =>
      exact (jsInsertBy_perm lt x (jsSortBy lt xs)).trans (ih.cons x)

theorem jsInsertBy_pairwise {α β : Type} [LinearOrder β] (lt : α → α → Bool)
    (k : α → β) (x : α) (l : List α)
    (hx : ∀ y ∈ l, (lt y x = true ↔ k y < k x))
    (hl : l.Pairwise (fun a b => k a ≤ k b)) :
    (jsInsertBy lt x l).Pairwise (fun a b => k a ≤ k b) := by
  induction l with
  | nil => simp [jsInsertBy]
  | cons y ys ih =>
      rcases List.pairwise_cons.mp hl with ⟨hy, hys⟩
      by_cases h : lt y x = true
      · have hyx : k y < k x := (hx y (List.mem_cons_self y ys)).mp h
        simp only [jsInsertBy, h, if_true]
        refine List.pairwise_cons.mpr ⟨?_, ih (fun z hz => hx z (List.mem_cons_of_mem y hz)) hys⟩
        intro z hz
        rcases List.mem_cons.mp ((jsInsertBy_perm lt x ys).mem_iff.mp hz) with h1 | h2
        · exact h1 ▸ hyx.le
        · exact hy z h2
      · have hxy : k x ≤ k y :=
          le_of_not_lt (fun hc => h ((hx y (List.mem_cons_self y ys)).mpr hc))
        simp only [jsInsertBy, h, if_false]
        refine List.pairwise_cons.mpr ⟨?_, hl⟩
        intro z hz
        rcases List.mem_cons.mp hz with h1 | h2
        · exact h1 ▸ hxy
        · exact hxy.trans (hy z h2)

theorem jsSortBy_pairwise {α β : Type} [LinearOrder β] (lt : α → α → Bool)
    (k : α → β) (l : List α)
    (h : ∀ a ∈ l, ∀ b ∈ l, (lt a b = true ↔ k a < k b)) :
    (jsSortBy lt l).Pairwise (fun a b => k a ≤ k b) := by
  induction l with
  | nil => simp [jsSortBy]
  | cons x xs ih =>
      simp only [jsSortBy]
      refine jsInsertBy_pairwise lt k x (jsSortBy lt xs) ?_ ?_
      · intro y hy
        have hyx : y ∈ xs := (jsSortBy_perm lt xs).mem_iff.mp hy
        exact h y (List.mem_cons_of_mem x hyx) x (List.mem_cons_self x xs)
      · exact ih (fun a ha b hb =>
          h a (List.mem_cons_of_mem x ha) b (List.mem_cons_of_mem x hb))

theorem jsInsertBy_filter_pos {α : Type} (lt : α → α → Bool) (p : α → Bool)
    (x : α) (l : List α) (hx : p x = true)
    (hno : ∀ y, p y = true → lt y x = false) :
    (jsInsertBy lt x l).filter p = x :: l.filter p := by
  induction l with
  | nil => simp [jsInsertBy, hx]
  | cons y ys ih =>
      by_cases h : lt y x = true
      · have hpy : p y = false := by
          cases hp : p y with
          | false => rfl
          | true => exact absurd h (by simp [hno y hp])
        simp only [jsInsertBy, h, if_true, List.filter_cons, hpy]
        simpa [hpy] using ih
      · simp [jsInsertBy, h, List.filter_cons, hx]

theorem jsInsertBy_filter_neg {α : Type} (lt : α → α → Bool) (p : α → Bool)
    (x : α) (l : List α) (hx : p x = false) :
    (jsInsertBy lt x l).filter p = l.filter p := by
  induction l with
  | nil => simp [jsInsertBy, hx]
  | cons y ys ih =>
      by_cases h : lt y x = true
      · simp only [jsInsertBy, h, if_true, List.filter_cons]
        rw [ih]
      · simp [jsInsertBy, h, List.filter_cons, hx]

theorem jsSortBy_filter {α : Type} (lt : α → α → Bool) (p : α → Bool)
    (hpp : ∀ a b, p a = true → p b = true → lt a b = false) (l : List α) :
    (jsSortBy lt l).filter p = l.filter p := by
  induction l with
  | nil => rfl
  | cons x xs ih =>
      cases hx : p x with
      | true =>
          simp only [jsSortBy]
          rw [jsInsertBy_filter_pos lt p x _ hx (fun y hy => hpp y x hy hx), ih,
            List.filter_cons, hx]
          simp
      | false =>
          simp only [jsSortBy]
          rw [jsInsertBy_filter_neg lt p x _ hx, ih, List.filter_cons, hx]
          simp

/-! ### The default string comparator of Array.prototype.sort

Object.keys(...).sort() compares strings by code units; for the ASCII date
strings produced by toLocaleDateString this is lexicographic order on the
character lists, computed here executably. -/

/-- Lexicographic strict order on character lists. -/
def strLtAux : List Char → List Char → Bool
  | _, [] => false
  | [], _ :: _ => true
  | a :: as, b :: bs => if a < b then true else if b < a then false else strLtAux as bs

/-- The default sort comparator on strings: true when a sorts strictly
before b. -/
def strLt (a b : String) : Bool := strLtAux a.data b.data

theorem strLtAux_iff_lex (as bs : List Char) :
    strLtAux as bs = true ↔ List.Lex (· < ·) as bs := by
  induction as generalizing bs with
  | nil =>
      cases bs with
      | nil =>
          simp only [strLtAux, Bool.false_eq_true, false_iff]
          intro h
          cases h
      | cons b t =>
          simp only [strLtAux, true_iff]
          exact List.Lex.nil
  | cons a as ih =>
      cases bs with
      | nil =>
          simp only [strLtAux, Bool.false_eq_true, false_iff]
          intro h
          cases h
      | cons b t =>
          by_cases hab : a < b
          · simp only [strLtAux, hab, if_true, true_iff]
            exact List.Lex.rel hab
          · by_cases hba : b < a
            · simp only [strLtAux, hab, if_false, hba, if_true, Bool.false_eq_true,
                false_iff]
              intro h
              cases h with
              | cons h => exact lt_irrefl a hba
              | rel h => exact hab h
            · have hEq : a = b := le_antisymm (le_of_not_lt hba) (le_of_not_lt hab)
              subst hEq
              simp only [strLtAux, hab, if_false, hba, if_false]
              rw [ih t]
              constructor
              · exact fun h => List.Lex.cons h
              · intro h
                cases h with
                | cons h => exact h
                | rel h => exact absurd h hab

theorem strLt_iff (a b : String) : strLt a b = true ↔ a < b := by
  rw [String.lt_iff_toList_lt]
  exact strLtAux_iff_lex a.data b.data

/-! ### Chart data adapters (getDailyTrendData, getTopCategoriesData) -/

/-- Object property read m[k] used after sorting the keys: the key is always
present there, so the undefined case is folded into NaN. -/
def jsGet (m : List (String × JsNum)) (k : String) : JsNum :=
  (alookup m k).getD none

/-- The labels/data pair produced for the line chart. -/
structure TrendChart where
  labels : List String
  data : List JsNum
  deriving DecidableEq

/-- getDailyTrendData of Reports.js (lines 228-241):
Object.keys(dailyTotals).sort() followed by a lookup per sorted key. -/
def getDailyTrendData (s : ReportSummary) : TrendChart :=
  let sortedDates := jsSortBy strLt (s.dailyTotals.map Prod.fst)
  { labels := sortedDates
    data := sortedDates.map (fun d => jsGet s.dailyTotals d) }

/-- The comparator ([, a], [, b]) => b - a of getTopCategoriesData: the left
entry comes strictly before the right one when its amount is the larger
number; a NaN on either side makes the comparator return NaN, which the sort
treats as equal (no reorder). -/
def cmpCat (p q : String × JsNum) : Bool :=
  match p.2, q.2 with
  | some a, some b => decide (b < a)
  | _, _ => false

/-- The labels/data pair produced for the bar chart. -/
structure BarChart where
  labels : List String
  data : List JsNum
  deriving DecidableEq

/-- getTopCategoriesData of Reports.js (lines 243-257):
Object.entries(categoryTotals).sort(([,a],[,b]) => b - a).slice(0, 5);
catName models the external expenseCategories[cat]?.name || cat display-name
lookup (a pure function imported from helpers). -/
def getTopCategoriesData (catName : String → String) (s : ReportSummary) :
    BarChart :=
  let sortedCategories := (jsSortBy cmpCat s.categoryTotals).take 5
  { labels := sortedCategories.map (fun p => catName p.1)
    data := sortedCategories.map Prod.snd }

/-! ### Reading a toLocaleDateString key back as a calendar date

Used only to state what chronological ordering of the date keys would mean;
the source itself never parses the keys back. -/

/-- Split a character list on a separator character. -/
def splitOnChar (c : Char) : List Char → List (List Char)
  | [] => [[]]
  | a :: t =>
    match splitOnChar c t with
    | [] => if a = c then [[], []] else [[a]]
    | h :: r => if a = c then [] :: h :: r else (a :: h) :: r

/-- Decimal digit value of a character. -/
def digitVal (c : Char) : Option ℕ :=
  if c.isDigit then some (c.toNat - 48) else none

/-- Accumulate a decimal number from digit characters. -/
def digitsValAux : List Char → ℕ → Option ℕ
  | [], acc => some acc
  | c :: t, acc =>
    match digitVal c with
    | some d => digitsValAux t (acc * 10 + d)
    | none => none

/-- Parse a non-empty all-digit character list as a decimal number. -/
def digitsVal : List Char → Option ℕ
  | [] => none
  | cs => digitsValAux cs 0

/-- Parse an en-US "M/D/YYYY" locale date string back into
(year, month, day). -/
def parseLocaleDate (s : String) : Option (ℕ × ℕ × ℕ) :=
  match (splitOnChar '/' s.data).map digitsVal with
  | [some m, some d, some y] => some (y, m, d)
  | _ => none

/-- Chronological rank of a locale date string: year, then month, then day
(0 for unparsable strings). Two parsable date keys compare chronologically
exactly when their ranks compare. -/
def dateKeyVal (s : String) : ℕ :=
  match parseLocaleDate s with
  | some (y, m, d) => y * 10000 + m * 100 + d
  | none => 0

/-! ### The PDF export (exportToPDF, lines 259-455)

The jsPDF drawing calls are modelled by the positions at which content is
emitted: one RowOut per expense line (page index and vertical cursor at the
moment the row is drawn), one SectionOut per category. The vertical cursor
follows the source exactly: rows advance yPos by 8 and only then check
yPos > 270 (addPage and reset to 20); after a category's rows, yPos advances
by 10 with the same check. A section contributes 16 (header bar) + 6 (table
header) + 2 (rule line) = 24 before its first row, with no check. The whole
generation runs inside logoImg.onload, and no onerror handler exists. -/

/-- The period selector tags of the Reports page. -/
inductive PeriodTag where
  | today
  | week
  | month
  | lastMonth
  | year
  | lastYear
  | custom
  | all
  deriving DecidableEq

/-- The literal string value of a period tag in the component state. -/
def periodTagName : PeriodTag → String
  | .today => "today"
  | .week => "week"
  | .month => "month"
  | .lastMonth => "lastMonth"
  | .year => "year"
  | .lastYear => "lastYear"
  | .custom => "custom"
  | .all => "all"

/-- Zero-pad a number to two digits, as in toISOString date components. -/
def pad2 (n : ℕ) : String := if n < 10 then "0" ++ Nat.repr n else Nat.repr n

/-- The date part of toISOString().split('T')[0]: "YYYY-MM-DD". -/
def isoDateString (d : CalDate) : String :=
  Nat.repr d.year ++ "-" ++ pad2 d.month ++ "-" ++ pad2 d.day

/-- getFilenameDatePart of exportToPDF (lines 412-421). For a custom period
the source calls customDate.startDate.toISOString() unconditionally, which
throws a TypeError when a bound is null: that error outcome is none here
(on those same inputs the export has in fact already died earlier, at the
period line — see exportToPDF). -/
def filenameDatePart (period : PeriodTag) (cs ce : Option CalDate) :
    Option String :=
  match period with
  | .custom =>
      match cs, ce with
      | some a, some b => some (isoDateString a ++ "_to_" ++ isoDateString b)
      | _, _ => none
  | .all => some "all-time"
  | p => some (periodTagName p)

/-- Logo bounding-box computation (lines 270-277): max 40x40 keeping the
aspect ratio of the loaded image of width w and height h. -/
def computeLogoSize (w h : ℚ) : ℚ × ℚ :=
  if h < w then (40, h / w * 40) else (w / h * 40, 40)

/-- The layout cursor: current page (jsPDF starts on page 1) and vertical
position yPos. -/
structure LayoutState where
  page : ℕ
  y : ℚ

/-- One emitted expense line: where it was drawn and its description cell
(exp.description || '-'). -/
structure RowOut where
  page : ℕ
  y : ℚ
  description : String

/-- One emitted category section: header position and its rows. -/
structure SectionOut where
  category : String
  headerPage : ℕ
  headerY : ℚ
  rows : List RowOut

/-- The check if (yPos > 270) { pdf.addPage(); yPos = 20; } of the source,
performed after content was written. -/
def pageBreakAfter (st : LayoutState) : LayoutState :=
  if 270 < st.y then { page := st.page + 1, y := 20 } else st

/-- Emit the rows of one category sub-table (lines 381-400): each row is
drawn at the current cursor, then yPos += 8 and the overflow check runs. -/
def emitRows (es : List ExpenseRecord) (st : LayoutState) :
    List RowOut × LayoutState :=
  match es with
  | [] => ([], st)
  | e :: rest =>
    let row : RowOut :=
      ⟨st.page, st.y, if e.description = "" then "-" else e.description⟩
    let st1 := pageBreakAfter { st with y := st.y + 8 }
    let r := emitRows rest st1
    (row :: r.1, r.2)

/-- Emit one category section (lines 354-406): header bar (+16), table
header (+6), rule (+2), the matching rows, then yPos += 10 and the overflow
check. No check precedes the header. -/
def emitSection (allEs : List ExpenseRecord) (st : LayoutState) (cat : String) :
    SectionOut × LayoutState :=
  let st1 : LayoutState := { st with y := st.y + 24 }
  let r := emitRows (allEs.filter (fun e => e.category == cat)) st1
  let st3 := pageBreakAfter { r.2 with y := r.2.y + 10 }
  (⟨cat, st.page, st.y, r.1⟩, st3)

/-- Emit every category section in the order of the given category list. -/
def emitSections (allEs : List ExpenseRecord) (st : LayoutState) :
    List String → List SectionOut × LayoutState
  | [] => ([], st)
  | c :: cs =>
    let r := emitSection allEs st c
    let rest := emitSections allEs r.2 cs
    (r.1 :: rest.1, rest.2)

/-- The finished document: title, category sections with their layout
positions, page count, output filename (none where the filename code would
throw) and the summary block contents. -/
structure PdfDoc where
  title : String
  sections : List SectionOut
  pages : ℕ
  filename : Option String
  summaryTotalSpent : JsNum
  summaryTransactionCount : ℕ
  summaryAverageTransaction : JsNum

/-- The document contents laid out by the body of logoImg.onload: header
block (logo of scaled height lh, title +15, period line +20, summary
header +10, summary box +30, breakdown header +10, starting from
yPos = 10 + lh + 10), then one section per entry of categoryTotals in
object key order (Object.entries insertion order, line 354). The period
line's and summary box's text comes from the external getDateRange and
formatCurrency helpers and is not tracked (the summary fields hold the
numeric values instead); the period line's failure mode is tracked, in
exportToPDF, which alone decides whether this document is delivered. -/
def renderPdf (w h : ℚ) (s : ReportSummary) (es : List ExpenseRecord)
    (period : PeriodTag) (cs ce : Option CalDate) : PdfDoc :=
  let lh := (computeLogoSize w h).2
  let st0 : LayoutState := ⟨1, 105 + lh⟩
  let r := emitSections es st0 (s.categoryTotals.map Prod.fst)
  { title := "FinSight AI - Expense Report"
    sections := r.1
    pages := r.2.page
    filename := (filenameDatePart period cs ce).map
      (fun part => "finsight-report-" ++ part ++ ".pdf")
    summaryTotalSpent := s.totalSpent
    summaryTransactionCount := s.transactionCount
    summaryAverageTransaction := s.averageTransaction }

/-- The period-description line (lines 292-318) throws: for
period = 'custom' the dateRange is the raw customDate bounds (line 307)
and formatDate calls toLocaleDateString on them (line 314), so a null
bound raises a TypeError inside the onload callback and the export dies
with nothing drawn or saved. Every other period feeds formatDate genuine
Date values (getDateRange output, the account-creation date, or
new Date()), so the call succeeds. This state is reachable: the Export PDF
button (lines 578-586) renders unconditionally while the custom pickers
are still empty. -/
abbrev periodLineThrows (period : PeriodTag) (cs ce : Option CalDate) : Prop :=
  period = PeriodTag.custom ∧ (cs = none ∨ ce = none)

/-- exportToPDF of Reports.js: the whole document generation and delivery is
the logoImg.onload callback. No onerror handler is installed, so when the
logo image fails to load nothing runs and no document is produced; when it
loads but the period line throws (periodLineThrows), the callback dies
before anything is saved, and again no document is delivered. -/
def exportToPDF (logoLoaded : Bool) (w h : ℚ) (s : ReportSummary)
    (es : List ExpenseRecord) (period : PeriodTag) (cs ce : Option CalDate) :
    Option PdfDoc :=
  if logoLoaded then
    if periodLineThrows period cs ce then none
    else some (renderPdf w h s es period cs ce)
  else none

/-! ### Integer mirror of the layout

All cursor increments of the source are integers; only the logo height can be
fractional. For concrete inputs with an integral logo height the rational
trace coincides with this integer trace, which the kernel can evaluate. -/

/-- Integer layout cursor. -/
structure LayoutStateZ where
  page : ℕ
  y : ℤ
  deriving DecidableEq

/-- Integer row position. -/
structure RowOutZ where
  page : ℕ
  y : ℤ
  description : String
  deriving DecidableEq

/-- Integer section. -/
structure SectionOutZ where
  category : String
  headerPage : ℕ
  headerY : ℤ
  rows : List RowOutZ
  deriving DecidableEq

/-- Integer overflow check. -/
def pageBreakAfterZ (st : LayoutStateZ) : LayoutStateZ :=
  if 270 < st.y then { page := st.page + 1, y := 20 } else st

/-- Integer row emission. -/
def emitRowsZ (es : List ExpenseRecord) (st : LayoutStateZ) :
    List RowOutZ × LayoutStateZ :=
  match es with
  | [] => ([], st)
  | e :: rest =>
    let row : RowOutZ :=
      ⟨st.page, st.y, if e.description = "" then "-" else e.description⟩
    let st1 := pageBreakAfterZ { st with y := st.y + 8 }
    let r := emitRowsZ rest st1
    (row :: r.1, r.2)

/-- Integer section emission. -/
def emitSectionZ (allEs : List ExpenseRecord) (st : LayoutStateZ) (cat : String) :
    SectionOutZ × LayoutStateZ :=
  let st1 : LayoutStateZ := { st with y := st.y + 24 }
  let r := emitRowsZ (allEs.filter (fun e => e.category == cat)) st1
  let st3 := pageBreakAfterZ { r.2 with y := r.2.y + 10 }
  (⟨cat, st.page, st.y, r.1⟩, st3)

/-- Integer emission of every section. -/
def emitSectionsZ (allEs : List ExpenseRecord) (st : LayoutStateZ) :
    List String → List SectionOutZ × LayoutStateZ
  | [] => ([], st)
  | c :: cs =>
    let r := emitSectionZ allEs st c
    let rest := emitSectionsZ allEs r.2 cs
    (r.1 :: rest.1, rest.2)

/-- Cast an integer cursor into the rational model. -/
def stateOfZ (st : LayoutStateZ) : LayoutState := ⟨st.page, (st.y : ℚ)⟩

/-- Cast an integer row into the rational model. -/
def rowOfZ (r : RowOutZ) : RowOut := ⟨r.page, (r.y : ℚ), r.description⟩

/-- Cast an integer section into the rational model. -/
def sectionOfZ (s : SectionOutZ) : SectionOut :=
  ⟨s.category, s.headerPage, (s.headerY : ℚ), s.rows.map rowOfZ⟩

theorem pageBreakAfter_ofZ (st : LayoutStateZ) :
    pageBreakAfter (stateOfZ st) = stateOfZ (pageBreakAfterZ st) := by
  simp only [pageBreakAfter, pageBreakAfterZ, stateOfZ]
  by_cases h : (270 : ℤ) < st.y
  · rw [if_pos (by exact_mod_cast h), if_pos h]
    norm_num
  · rw [if_neg (by exact_mod_cast h), if_neg h]

theorem emitRows_ofZ (es : List ExpenseRecord) (st : LayoutStateZ) :
    emitRows es (stateOfZ st) =
      ((emitRowsZ es st).1.map rowOfZ, stateOfZ (emitRowsZ es st).2) := by
  induction es generalizing st with
  | nil => rfl
  | cons e rest ih =>
      simp only [emitRows, emitRowsZ, List.map_cons]
      have hcur : ({ stateOfZ st with y := (stateOfZ st).y + 8 } : LayoutState) =
          stateOfZ { st with y := st.y + 8 } := by
        simp [stateOfZ]
      rw [hcur, pageBreakAfter_ofZ, ih]
      simp [stateOfZ, rowOfZ]

theorem emitSection_ofZ (allEs : List ExpenseRecord) (st : LayoutStateZ)
    (cat : String) :
    emitSection allEs (stateOfZ st) cat =
      (sectionOfZ (emitSectionZ allEs st cat).1,
       stateOfZ (emitSectionZ allEs st cat).2) := by
  simp only [emitSection, emitSectionZ]
  have hcur : ({ stateOfZ st with y := (stateOfZ st).y + 24 } : LayoutState) =
      stateOfZ { st with y := st.y + 24 } := by
    simp [stateOfZ]
  rw [hcur, emitRows_ofZ]
  have hcur2 : ∀ st2 : LayoutStateZ,
      ({ stateOfZ st2 with y := (stateOfZ st2).y + 10 } : LayoutState) =
        stateOfZ { st2 with y := st2.y + 10 } := by
    intro st2
    simp [stateOfZ]
  rw [hcur2, pageBreakAfter_ofZ]
  simp [stateOfZ, sectionOfZ]

theorem emitSections_ofZ (allEs : List ExpenseRecord) (st : LayoutStateZ)
    (cats : List String) :
    emitSections allEs (stateOfZ st) cats =
      ((emitSectionsZ allEs st cats).1.map sectionOfZ,
       stateOfZ (emitSectionsZ allEs st cats).2) := by
  induction cats generalizing st with
  | nil => rfl
  | cons c cs ih =>
      simp only [emitSections, emitSectionsZ, List.map_cons]
      rw [emitSection_ofZ, ih]

/-! ### The data-fetch state transition (fetchReportData, lines 135-187) -/

/-- The empty summary installed when a custom range is incomplete
(lines 143-149). -/
def emptyReport : ReportSummary :=
  { totalSpent := some 0
    categoryTotals := []
    dailyTotals := []
    transactionCount := 0
    averageTransaction := some 0 }

/-- The component state touched by fetchReportData. -/
structure ReportsState where
  expenses : List ExpenseRecord
  reportData : ReportSummary
  loading : Bool
  errorMsg : Option String
  deriving DecidableEq

/-- fetchReportData as a state transition. The remote call outcome is the
fetchResult argument. For an incomplete custom range the function clears the
data and returns early without fetching; on a successful fetch it stores the
records and the freshly aggregated summary; on a failed fetch the catch
block records the error via handleError and the finally block clears
loading — expenses and reportData are left as they were. -/
def fetchReportData (st : ReportsState) (period : PeriodTag)
    (cs ce : Option CalDate)
    (fetchResult : Except String (List ExpenseRecord)) : ReportsState :=
  if period = PeriodTag.custom ∧ (cs = none ∨ ce = none) then
    { expenses := []
      reportData := emptyReport
      loading := false
      errorMsg := st.errorMsg }
  else
    match fetchResult with
    | Except.ok recs =>
        { expenses := recs
          reportData := processReportData recs
          loading := false
          errorMsg := st.errorMsg }
    | Except.error e =>
        { st with errorMsg := some e, loading := false }

/-! ### The period-selection state machine (Reports component, lines 75-108
and 548-567) -/

/-- The slice of component state driving period selection. -/
structure SelState where
  period : PeriodTag
  customStart : Option CalDate
  customEnd : Option CalDate
  deriving DecidableEq

/-- Initial component state: useState('month') and null custom bounds. -/
def initialSelState : SelState :=
  { period := PeriodTag.month, customStart := none, customEnd := none }

/-- The user interactions that mutate the period selection. -/
inductive UiEvent where
  | selectPeriod : PeriodTag → UiEvent
  | setStartDate : Option CalDate → UiEvent
  | setEndDate : Option CalDate → UiEvent

/-- One interaction step. The Select onChange always stores the new period
and clears both custom bounds unless the new value is 'custom'
(lines 551-556); the two DatePickers are rendered only while
period === 'custom' (line 589), so date events are no-ops otherwise. -/
def stepUi (s : SelState) : UiEvent → SelState
  | UiEvent.selectPeriod p =>
      if p = PeriodTag.custom then { s with period := p }
      else { period := p, customStart := none, customEnd := none }
  | UiEvent.setStartDate d =>
      if s.period = PeriodTag.custom then { s with customStart := d } else s
  | UiEvent.setEndDate d =>
      if s.period = PeriodTag.custom then { s with customEnd := d } else s

/-- The state reached from the initial state by a sequence of interactions. -/
def runUi (evs : List UiEvent) : SelState :=
  evs.foldl stepUi initialSelState

/-- The end date the 'all' period resolves to (line 159):
customDate.endDate || new Date(), i.e. the custom end when set (a Date
object is always truthy), else the current instant. -/
def allPeriodEnd (s : SelState) (now : CalDate) : CalDate :=
  (s.customEnd).getD now

/-! ### Aggregator lemmas -/

theorem jadd_none_right (a : JsNum) : jadd a none = none := by
  cases a <;> rfl

theorem orZero_some (b : JsNum) : orZero (some b) = b.getD 0 := by
  cases b <;> rfl

theorem alookup_aset (m : List (String × JsNum)) (k k' : String) (v : JsNum) :
    alookup (aset m k v) k' = if k = k' then some v else alookup m k' := by
  induction m with
  | nil =>
      simp [aset, alookup]
  | cons p t ih =>
      obtain ⟨a, b⟩ := p
      by_cases hak : a = k
      · subst hak
        by_cases hk : a = k'
        · subst hk
          simp [aset, alookup]
        · simp [aset, alookup, hk]
      · by_cases hk : k = k'
        · subst hk
          simp [aset, alookup, hak, ih]
        · by_cases hck : a = k'
          · subst hck
            simp [aset, alookup, hak, hk]
          · simp [aset, alookup, hak, hk, hck, ih]

theorem alookup_bump (m : List (String × JsNum)) (k : String) (amt : JsNum)
    (k' : String) :
    alookup (bump m k amt) k' =
      if k = k' then some (jadd (some (orZero (alookup m k))) amt)
      else alookup m k' := by
  simp [bump, alookup_aset]

theorem allSome_aset (m : List (String × JsNum)) (k : String) (v : JsNum)
    (hm : allSome m) (hv : v.isSome = true) : allSome (aset m k v) := by
  induction m with
  | nil =>
      intro p hp
      simp [aset] at hp
      simp [hp, hv]
  | cons q t ih =>
      obtain ⟨a, b⟩ := q
      have hb : b.isSome = true := hm (a, b) (List.mem_cons_self _ _)
      have ht : allSome t := fun p hp => hm p (List.mem_cons_of_mem _ hp)
      by_cases hak : a = k
      · subst hak
        intro p hp
        simp [aset] at hp
        rcases hp with hp | hp
        · simp [hp, hv]
        · exact ht p hp
      · intro p hp
        simp [aset, hak] at hp
        rcases hp with hp | hp
        · simp [hp, hb]
        · exact ih ht p hp

theorem allSome_bump (m : List (String × JsNum)) (k : String) (q : ℚ)
    (hm : allSome m) : allSome (bump m k (some q)) :=
  allSome_aset m k _ hm rfl

theorem qsum_nil : qsum [] = 0 := rfl

theorem qsum_cons (p : String × JsNum) (t : List (String × JsNum)) :
    qsum (p :: t) = (p.2).getD 0 + qsum t := by
  simp [qsum]

theorem qsum_bump (m : List (String × JsNum)) (k : String) (q : ℚ) :
    qsum (bump m k (some q)) = qsum m + q := by
  induction m with
  | nil =>
      simp [bump, aset, alookup, qsum, orZero, jadd]
  | cons p t ih =>
      obtain ⟨a, b⟩ := p
      by_cases hak : a = k
      · subst hak
        have h1 : bump ((a, b) :: t) a (some q) =
            (a, some (b.getD 0 + q)) :: t := by
          simp [bump, alookup, aset, orZero_some, jadd]
        rw [h1, qsum_cons, qsum_cons]
        simp
        ring
      · have h1 : bump ((a, b) :: t) k (some q) = (a, b) :: bump t k (some q) := by
          simp [bump, alookup, aset, hak, Ne.symm hak]
        rw [h1, qsum_cons, qsum_cons, ih]
        ring

theorem accMap_nil (f : ExpenseRecord → String) (m : List (String × JsNum)) :
    accMap f m [] = m := rfl

theorem accMap_cons (f : ExpenseRecord → String) (m : List (String × JsNum))
    (r : ExpenseRecord) (l : List ExpenseRecord) :
    accMap f m (r :: l) = accMap f (bump m (f r) r.amount) l := rfl

theorem allSome_accMap (f : ExpenseRecord → String) (l : List ExpenseRecord)
    (m : List (String × JsNum)) (hl : ∀ r ∈ l, (r.amount).isSome = true)
    (hm : allSome m) : allSome (accMap f m l) := by
  induction l generalizing m with
  | nil => exact hm
  | cons r rest ih =>
      obtain ⟨q, hq⟩ := Option.isSome_iff_exists.mp
        (hl r (List.mem_cons_self _ _))
      rw [accMap_cons, hq]
      exact ih _ (fun x hx => hl x (List.mem_cons_of_mem _ hx))
        (allSome_bump m (f r) q hm)

theorem amtsum_nil : amtsum [] = 0 := rfl

theorem amtsum_cons (r : ExpenseRecord) (l : List ExpenseRecord) :
    amtsum (r :: l) = (r.amount).getD 0 + amtsum l := by
  simp [amtsum]

theorem qsum_accMap (f : ExpenseRecord → String) (l : List ExpenseRecord)
    (m : List (String × JsNum)) (hl : ∀ r ∈ l, (r.amount).isSome = true) :
    qsum (accMap f m l) = qsum m + amtsum l := by
  induction l generalizing m with
  | nil => simp [accMap_nil, amtsum_nil]
  | cons r rest ih =>
      obtain ⟨q, hq⟩ := Option.isSome_iff_exists.mp
        (hl r (List.mem_cons_self _ _))
      rw [accMap_cons, hq,
        ih _ (fun x hx => hl x (List.mem_cons_of_mem _ hx)),
        qsum_bump, amtsum_cons, hq]
      simp
      ring

theorem sumVals_eq_qsum (m : List (String × JsNum)) (hm : allSome m) :
    sumVals m = some (qsum m) := by
  induction m with
  | nil => rfl
  | cons p t ih =>
      obtain ⟨a, b⟩ := p
      obtain ⟨q, hq⟩ := Option.isSome_iff_exists.mp
        (hm (a, b) (List.mem_cons_self _ _))
      have ht : allSome t := fun x hx => hm x (List.mem_cons_of_mem _ hx)
      simp only [sumVals] at *
      rw [List.foldr_cons, ih ht, qsum_cons, hq]
      simp [jadd]

/-- The running total accumulation totalSpent += amount. -/
def jaddAmt (a : JsNum) (r : ExpenseRecord) : JsNum := jadd a r.amount

theorem foldl_jaddAmt_some (l : List ExpenseRecord)
    (hl : ∀ r ∈ l, (r.amount).isSome = true) (t : ℚ) :
    l.foldl jaddAmt (some t) = some (t + amtsum l) := by
  induction l generalizing t with
  | nil => simp [amtsum_nil]
  | cons r rest ih =>
      obtain ⟨q, hq⟩ := Option.isSome_iff_exists.mp
        (hl r (List.mem_cons_self _ _))
      rw [List.foldl_cons]
      have h1 : jaddAmt (some t) r = some (t + q) := by
        simp [jaddAmt, hq, jadd]
      rw [h1, ih (fun x hx => hl x (List.mem_cons_of_mem _ hx)),
        amtsum_cons, hq]
      simp
      ring

theorem foldl_jaddAmt_none (l : List ExpenseRecord) :
    l.foldl jaddAmt none = none := by
  induction l with
  | nil => rfl
  | cons r rest ih =>
      rw [List.foldl_cons]
      have h1 : jaddAmt none r = none := rfl
      rw [h1, ih]

theorem foldl_jaddAmt_mem_none (l : List ExpenseRecord) (r : ExpenseRecord)
    (hr : r ∈ l) (ha : r.amount = none) (a : JsNum) :
    l.foldl jaddAmt a = none := by
  induction l generalizing a with
  | nil => cases hr
  | cons x rest ih =>
      rw [List.foldl_cons]
      rcases List.mem_cons.mp hr with h1 | h2
      · subst h1
        have : jaddAmt a r = none := by simp [jaddAmt, ha, jadd_none_right]
        rw [this, foldl_jaddAmt_none]
      · exact ih h2 _

theorem foldl_processStep_eq (l : List ExpenseRecord) (t : JsNum)
    (c d : List (String × JsNum)) :
    l.foldl processStep (t, c, d) =
      (l.foldl jaddAmt t,
       accMap (fun r => r.category) c l,
       accMap (fun r => toLocaleDateString r.date) d l) := by
  induction l generalizing t c d with
  | nil => rfl
  | cons r rest ih =>
      rw [List.foldl_cons]
      have h1 : processStep (t, c, d) r =
          (jaddAmt t r, bump c r.category r.amount,
           bump d (toLocaleDateString r.date) r.amount) := rfl
      rw [h1, ih]
      rfl

theorem processReportData_totalSpent (l : List ExpenseRecord) :
    (processReportData l).totalSpent = l.foldl jaddAmt (some 0) := by
  simp [processReportData, foldl_processStep_eq]

theorem processReportData_categoryTotals (l : List ExpenseRecord) :
    (processReportData l).categoryTotals =
      accMap (fun r => r.category) [] l := by
  simp [processReportData, foldl_processStep_eq]

theorem processReportData_dailyTotals (l : List ExpenseRecord) :
    (processReportData l).dailyTotals =
      accMap (fun r => toLocaleDateString r.date) [] l := by
  simp [processReportData, foldl_processStep_eq]

theorem processReportData_count (l : List ExpenseRecord) :
    (processReportData l).transactionCount = l.length := rfl

theorem processReportData_avg (l : List ExpenseRecord) :
    (processReportData l).averageTransaction =
      if 0 < l.length then jdivNat (l.foldl jaddAmt (some 0)) l.length
      else some 0 := by
  simp [processReportData, foldl_processStep_eq]

theorem alookup_accMap (f : ExpenseRecord → String) (l : List ExpenseRecord)
    (m : List (String × JsNum)) (hl : ∀ r ∈ l, (r.amount).isSome = true)
    (hm : allSome m) (key : String) :
    alookup (accMap f m l) key =
      if l.filter (fun r => f r == key) = [] then alookup m key
      else some (some (orZero (alookup m key) +
        amtsum (l.filter (fun r => f r == key)))) := by
  induction l generalizing m with
  | nil => simp [accMap_nil]
  | cons r rest ih =>
      obtain ⟨q, hq⟩ := Option.isSome_iff_exists.mp
        (hl r (List.mem_cons_self _ _))
      have hrest : ∀ x ∈ rest, (x.amount).isSome = true :=
        fun x hx => hl x (List.mem_cons_of_mem _ hx)
      rw [accMap_cons, hq, ih _ hrest (allSome_bump m (f r) q hm)]
      by_cases hfr : f r = key
      · have hbeq : (f r == key) = true := by simp [hfr]
        have hlook : alookup (bump m (f r) (some q)) key =
            some (some (orZero (alookup m key) + q)) := by
          rw [alookup_bump, if_pos hfr, hfr]
          simp [jadd, orZero_some]
        have hfilter : (r :: rest).filter (fun x => f x == key) =
            r :: rest.filter (fun x => f x == key) := by
          simp [List.filter_cons, hbeq]
        rw [hfilter]
        by_cases hempty : rest.filter (fun x => f x == key) = []
        · rw [if_pos hempty, hlook, if_neg (by simp), hempty, amtsum_cons,
            amtsum_nil, hq]
          simp
        · rw [if_neg hempty, if_neg (by simp), hlook, amtsum_cons, hq]
          simp only [orZero_some, Option.getD_some]
          rw [add_assoc]
      · have hbeq : (f r == key) = false := by simp [hfr]
        have hlook : alookup (bump m (f r) (some q)) key = alookup m key := by
          rw [alookup_bump, if_neg hfr]
        have hfilter : (r :: rest).filter (fun x => f x == key) =
            rest.filter (fun x => f x == key) := by
          simp [List.filter_cons, hbeq]
        rw [hfilter, hlook]

theorem alookup_processReportData_cat (l : List ExpenseRecord)
    (hl : ∀ r ∈ l, (r.amount).isSome = true) (key : String) :
    alookup (processReportData l).categoryTotals key =
      if l.filter (fun r => r.category == key) = [] then none
      else some (some (amtsum (l.filter (fun r => r.category == key)))) := by
  rw [processReportData_categoryTotals,
    alookup_accMap _ l [] hl (by intro p hp; cases hp) key]
  simp [alookup, orZero]

theorem alookup_processReportData_daily (l : List ExpenseRecord)
    (hl : ∀ r ∈ l, (r.amount).isSome = true) (key : String) :
    alookup (processReportData l).dailyTotals key =
      if l.filter (fun r => toLocaleDateString r.date == key) = [] then none
      else some (some (amtsum
        (l.filter (fun r => toLocaleDateString r.date == key)))) := by
  rw [processReportData_dailyTotals,
    alookup_accMap _ l [] hl (by intro p hp; cases hp) key]
  simp [alookup, orZero]

/-! ### Layout bounds -/

theorem pageBreakAfter_le (st : LayoutState) : (pageBreakAfter st).y ≤ 270 := by
  simp only [pageBreakAfter]
  by_cases h : (270 : ℚ) < st.y
  · rw [if_pos h]
    norm_num
  · rw [if_neg h]
    exact le_of_not_lt h

theorem emitRows_rows_le (es : List ExpenseRecord) (st : LayoutState)
    (h : st.y ≤ 270) : ∀ r ∈ (emitRows es st).1, r.y ≤ 270 := by
  induction es generalizing st with
  | nil =>
      intro r hr
      cases hr
  | cons e rest ih =>
      intro r hr
      simp only [emitRows] at hr
      rcases List.mem_cons.mp hr with h1 | h2
      · rw [h1]
        exact h
      · exact ih (pageBreakAfter { st with y := st.y + 8 })
          (pageBreakAfter_le _) r h2

theorem emitRows_tail_le (es : List ExpenseRecord) (st : LayoutState) :
    ∀ r ∈ (emitRows es st).1.drop 1, r.y ≤ 270 := by
  cases es with
  | nil =>
      intro r hr
      cases hr
  | cons e rest =>
      intro r hr
      have hdrop : (emitRows (e :: rest) st).1.drop 1 =
          (emitRows rest (pageBreakAfter { st with y := st.y + 8 })).1 := by
        simp [emitRows]
      rw [hdrop] at hr
      exact emitRows_rows_le rest _ (pageBreakAfter_le _) r hr

theorem emitSection_rows_tail_le (allEs : List ExpenseRecord)
    (st : LayoutState) (cat : String) :
    ∀ r ∈ (emitSection allEs st cat).1.rows.drop 1, r.y ≤ 270 := by
  intro r hr
  simp only [emitSection] at hr
  exact emitRows_tail_le _ _ r hr

theorem emitSections_rows_tail_le (allEs : List ExpenseRecord)
    (cats : List String) (st : LayoutState) :
    ∀ sec ∈ (emitSections allEs st cats).1, ∀ r ∈ sec.rows.drop 1,
      r.y ≤ 270 := by
  induction cats generalizing st with
  | nil =>
      intro sec hsec
      cases hsec
  | cons c cs ih =>
      intro sec hsec
      simp only [emitSections] at hsec
      rcases List.mem_cons.mp hsec with h1 | h2
      · intro r hr
        rw [h1] at hr
        exact emitSection_rows_tail_le allEs st c r hr
      · exact ih _ sec h2

theorem emitSections_categories (allEs : List ExpenseRecord)
    (st : LayoutState) (cats : List String) :
    ((emitSections allEs st cats).1).map SectionOut.category = cats := by
  induction cats generalizing st with
  | nil => rfl
  | cons c cs ih =>
      simp only [emitSections, List.map_cons]
      rw [ih]
      rfl

theorem renderPdf_sections (w h : ℚ) (s : ReportSummary)
    (es : List ExpenseRecord) (p : PeriodTag) (cs ce : Option CalDate) :
    (renderPdf w h s es p cs ce).sections =
      (emitSections es ⟨1, 105 + (computeLogoSize w h).2⟩
        (s.categoryTotals.map Prod.fst)).1 := rfl

theorem renderPdf_pages (w h : ℚ) (s : ReportSummary)
    (es : List ExpenseRecord) (p : PeriodTag) (cs ce : Option CalDate) :
    (renderPdf w h s es p cs ce).pages =
      (emitSections es ⟨1, 105 + (computeLogoSize w h).2⟩
        (s.categoryTotals.map Prod.fst)).2.page := rfl

/-- With a square logo the scaled height is exactly 40, the sections start at
yPos = 145, and the rational trace is the cast of the integer trace. -/
theorem renderPdf_40_eq_z (s : ReportSummary) (es : List ExpenseRecord)
    (p : PeriodTag) (cs ce : Option CalDate) :
    (renderPdf 40 40 s es p cs ce).sections =
      ((emitSectionsZ es ⟨1, 145⟩ (s.categoryTotals.map Prod.fst)).1.map
        sectionOfZ) ∧
    (renderPdf 40 40 s es p cs ce).pages =
      (emitSectionsZ es ⟨1, 145⟩ (s.categoryTotals.map Prod.fst)).2.page := by
  have hst : (⟨1, 105 + (computeLogoSize 40 40).2⟩ : LayoutState) =
      stateOfZ ⟨1, 145⟩ := by
    have hlh : (computeLogoSize (40 : ℚ) 40).2 = 40 := by
      norm_num [computeLogoSize]
    rw [hlh]
    simp only [stateOfZ]
    norm_num
  constructor
  · rw [renderPdf_sections, hst, emitSections_ofZ]
  · rw [renderPdf_pages, hst, emitSections_ofZ, stateOfZ]

/-! ### Concrete data for the export claims -/

/-- A line item in the single category "food". -/
def exRecN (n : ℕ) : ExpenseRecord :=
  ⟨n, some 10, "food", ⟨2024, 3, 15⟩, "item"⟩

/-- 45 line items in one category: enough to cross one page break. -/
def exE45 : List ExpenseRecord := (List.range 45).map exRecN

/-- Summary of exE45. -/
def exS45 : ReportSummary :=
  ⟨some 450, [("food", some 450)], [("3/15/2024", some 450)], 45, some 10⟩

/-- 200 line items in one category (the spec's pagination scenario). -/
def exE200 : List ExpenseRecord := (List.range 200).map exRecN

/-- Summary of exE200. -/
def exS200 : ReportSummary :=
  ⟨some 2000, [("food", some 2000)], [("3/15/2024", some 2000)], 200, some 10⟩

/-- Two line items: enough to exhibit a non-first row of a section. -/
def exE2 : List ExpenseRecord := [exRecN 0, exRecN 1]

/-- Summary of exE2. -/
def exS2 : ReportSummary :=
  ⟨some 20, [("food", some 20)], [("3/15/2024", some 20)], 2, some 10⟩

/-- A two-category summary whose insertion order is the opposite of
descending-total order. -/
def exS6 : ReportSummary :=
  ⟨some 3, [("A", some 1), ("B", some 2)], [("3/15/2024", some 3)], 2,
   some (3 / 2)⟩

/-- C6, corrected. Counterexample to the claim as stated: for the summary
with categoryTotals inserted as A:1 then B:2, the document's per-category
sections come out in insertion order A, B, not in the descending-total
order B, A used by the breakdown display. -/
theorem C6_counterexample :
    ((renderPdf 40 40 exS6 [] PeriodTag.month none none).sections).map
        SectionOut.category ≠
      (jsSortBy cmpCat exS6.categoryTotals).map Prod.fst := by
  have h1 : ((renderPdf 40 40 exS6 [] PeriodTag.month none none).sections).map
      SectionOut.category = ["A", "B"] := by
    rw [renderPdf_sections, emitSections_categories]
    rfl
  rw [h1]
  decide

/-- C6, corrected (amended claim): exportToPDF emits the per-category
sections in the insertion order of the categoryTotals mapping
(Object.entries order), for every summary, rather than in descending-total
order. -/
theorem C6_amended (w h : ℚ) (s : ReportSummary) (es : List ExpenseRecord)
    (p : PeriodTag) (cs ce : Option CalDate) :
    ((renderPdf w h s es p cs ce).sections).map SectionOut.category =
      s.categoryTotals.map Prod.fst := by
  rw [renderPdf_sections, emitSections_categories]

set_option maxRecDepth 1000000 in
/-- C7, corrected. Counterexample to the claim as stated: with 45 line items
in one category, some row is written at a cursor position from which the row
pushes the cursor (and its own extent) past the 270 bottom margin — the
overflow check runs only after the row is drawn, not before. -/
theorem C7_counterexample :
    ∃ sec ∈ (renderPdf 40 40 exS45 exE45 PeriodTag.month none none).sections,
      ∃ r ∈ sec.rows, 270 < r.y + 8 ∧ 270 < r.y + 5 := by
  obtain ⟨hsec, _⟩ := renderPdf_40_eq_z exS45 exE45 PeriodTag.month none none
  rw [hsec]
  have hz : ∃ sz ∈ (emitSectionsZ exE45 ⟨1, 145⟩
      (exS45.categoryTotals.map Prod.fst)).1,
      ∃ rz ∈ sz.rows, (270 : ℤ) < rz.y + 8 ∧ (270 : ℤ) < rz.y + 5 := by
    decide
  obtain ⟨sz, hsz, rz, hrz, hz1, hz2⟩ := hz
  refine ⟨sectionOfZ sz, List.mem_map_of_mem _ hsz, rowOfZ rz, ?_, ?_, ?_⟩
  · exact List.mem_map_of_mem _ hrz
  · show (270 : ℚ) < (rz.y : ℚ) + 8
    exact_mod_cast hz1
  · show (270 : ℚ) < (rz.y : ℚ) + 5
    exact_mod_cast hz2

set_option maxRecDepth 1000000 in
/-- C7, corrected (amended claim): the overflow check runs after each row is
written; consequently every row after the first of its section starts at a
cursor position of at most 270, and on the single-category 200-line-item
dataset the export spans more than one page with every row lying inside the
297-unit page (no row split across a page boundary). -/
theorem C7_amended :
    (∀ w h : ℚ, ∀ s : ReportSummary, ∀ es : List ExpenseRecord,
      ∀ p : PeriodTag, ∀ cs ce : Option CalDate,
      ∀ sec ∈ (renderPdf w h s es p cs ce).sections,
        ∀ r ∈ sec.rows.drop 1, r.y ≤ 270) ∧
    1 < (renderPdf 40 40 exS200 exE200 PeriodTag.month none none).pages ∧
    (∀ sec ∈ (renderPdf 40 40 exS200 exE200 PeriodTag.month none none).sections,
      ∀ r ∈ sec.rows, 20 ≤ r.y ∧ r.y + 5 ≤ 297) := by
  obtain ⟨hsec, hpages⟩ :=
    renderPdf_40_eq_z exS200 exE200 PeriodTag.month none none
  refine ⟨?_, ?_, ?_⟩
  · intro w h s es p cs ce sec hs r hr
    rw [renderPdf_sections] at hs
    exact emitSections_rows_tail_le es _ _ sec hs r hr
  · rw [hpages]
    decide
  · rw [hsec]
    have hzz : ∀ sz ∈ (emitSectionsZ exE200 ⟨1, 145⟩
        (exS200.categoryTotals.map Prod.fst)).1,
        ∀ rz ∈ sz.rows, (20 : ℤ) ≤ rz.y ∧ rz.y + 5 ≤ 297 := by
      decide
    intro sec hs r hr
    obtain ⟨sz, hsz, rfl⟩ := List.mem_map.mp hs
    simp only [sectionOfZ] at hr
    obtain ⟨rz, hrz, rfl⟩ := List.mem_map.mp hr
    obtain ⟨hb1, hb2⟩ := hzz sz hsz rz hrz
    constructor
    · show (20 : ℚ) ≤ (rz.y : ℚ)
      exact_mod_cast hb1
    · show (rz.y : ℚ) + 5 ≤ 297
      exact_mod_cast hb2

/-- The single section the two-item dataset produces (integer trace). -/
def exSecZ2 : SectionOutZ :=
  ⟨"food", 1, 145, [⟨1, 169, "item"⟩, ⟨1, 177, "item"⟩]⟩

/-- The second row of that section. -/
def exRowZ2 : RowOutZ := ⟨1, 177, "item"⟩

/-- Witness for C7: the general bound applied to a concrete document and a
concrete non-first row. -/
theorem C7_witness : (rowOfZ exRowZ2).y ≤ 270 := by
  have hsec : sectionOfZ exSecZ2 ∈
      (renderPdf 40 40 exS2 exE2 PeriodTag.month none none).sections := by
    rw [(renderPdf_40_eq_z exS2 exE2 PeriodTag.month none none).1]
    exact List.mem_map_of_mem _ (by decide)
  have hrow : rowOfZ exRowZ2 ∈ (sectionOfZ exSecZ2).rows.drop 1 := by
    have hd : (sectionOfZ exSecZ2).rows.drop 1 = [rowOfZ exRowZ2] := rfl
    rw [hd]
    exact List.mem_singleton.mpr rfl
  exact C7_amended.1 40 40 exS2 exE2 PeriodTag.month none none
    (sectionOfZ exSecZ2) hsec (rowOfZ exRowZ2) hrow

/-- C8, corrected. Counterexample to the claim as stated: when the logo
image fails to load, exportToPDF delivers no document at all (isSome is
false), rather than a complete document without the image. -/
theorem C8_counterexample :
    (exportToPDF false 40 40 exS6 [] PeriodTag.month none none).isSome =
      false := rfl

/-- C8, corrected (amended claim): if the logo image fails to load,
exportToPDF produces and delivers no document at all — the entire
generation and save sequence is the logoImg.onload callback and no onerror
handler exists. Even with the logo loaded, delivery happens exactly when
the period line can be formatted: for period = 'custom' with a null bound,
formatDate(null) throws inside onload and likewise nothing is delivered;
otherwise the laid-out document is delivered. -/
theorem C8_amended (w h : ℚ) (s : ReportSummary) (es : List ExpenseRecord)
    (p : PeriodTag) (cs ce : Option CalDate) :
    exportToPDF false w h s es p cs ce = none ∧
    (periodLineThrows p cs ce → exportToPDF true w h s es p cs ce = none) ∧
    (¬ periodLineThrows p cs ce →
      exportToPDF true w h s es p cs ce =
        some (renderPdf w h s es p cs ce)) := by
  refine ⟨rfl, ?_, ?_⟩
  · intro hthrow
    simp only [exportToPDF, if_pos hthrow, if_true]
  · intro hok
    simp only [exportToPDF, if_neg hok, if_true]

/-- Witness for C8: both delivery outcomes of a loaded logo at concrete
inputs — a custom period with null bounds delivers nothing, a month period
delivers the laid-out document. -/
theorem C8_witness :
    exportToPDF false 40 40 exS6 [] PeriodTag.month none none = none ∧
    exportToPDF true 40 40 exS6 [] PeriodTag.custom none none = none ∧
    exportToPDF true 40 40 exS6 [] PeriodTag.month none none =
      some (renderPdf 40 40 exS6 [] PeriodTag.month none none) := by
  obtain ⟨h1, _, h3⟩ := C8_amended 40 40 exS6 [] PeriodTag.month none none
  obtain ⟨_, g2, _⟩ := C8_amended 40 40 exS6 [] PeriodTag.custom none none
  exact ⟨h1, g2 (by decide), h3 (by decide)⟩

/-! ### Concrete data for the aggregation claims -/

/-- A record whose amount parses. -/
def exGoodRec : ExpenseRecord := ⟨1, some 5, "food", ⟨2024, 3, 15⟩, "lunch"⟩

/-- A record whose amount does not parse (parseFloat gives NaN). -/
def exBadRec : ExpenseRecord := ⟨2, none, "travel", ⟨2024, 3, 16⟩, "taxi"⟩

/-- One good and one bad record. -/
def exC1 : List ExpenseRecord := [exGoodRec, exBadRec]

/-- Three parsable records across two categories and two days. -/
def exC2 : List ExpenseRecord :=
  [exGoodRec,
   ⟨3, some 7, "food", ⟨2024, 3, 16⟩, "dinner"⟩,
   ⟨4, some 2, "travel", ⟨2024, 3, 15⟩, "bus"⟩]

/-- C1, corrected. Counterexample to the claim as stated: on one good
record (5, food) and one unparsable record, transactionCount is the input
length 2, not the number of successfully accumulated records 1, and
totalSpent is NaN instead of the intact 5. -/
theorem C1_counterexample :
    (processReportData exC1).transactionCount ≠
      (exC1.filter (fun r => (r.amount).isSome)).length ∧
    (processReportData exC1).totalSpent ≠ some 5 := by
  constructor <;> decide

/-- C1, corrected (amended claim): processReportData does not skip records
with unparsable amounts; transactionCount always equals the input length,
and whenever any record's amount is NaN, totalSpent and averageTransaction
are NaN (the bad record corrupts the report totals rather than being
skipped). -/
theorem C1_amended (l : List ExpenseRecord) :
    (processReportData l).transactionCount = l.length ∧
    ∀ r ∈ l, r.amount = none →
      (processReportData l).totalSpent = none ∧
      (processReportData l).averageTransaction = none := by
  refine ⟨processReportData_count l, ?_⟩
  intro r hr ha
  have hfold : l.foldl jaddAmt (some 0) = none :=
    foldl_jaddAmt_mem_none l r hr ha _
  refine ⟨?_, ?_⟩
  · rw [processReportData_totalSpent, hfold]
  · rw [processReportData_avg,
      if_pos (List.length_pos.mpr (List.ne_nil_of_mem hr)), hfold]
    rfl

/-- Witness for C1: the amended claim evaluated on the concrete two-record
input. -/
theorem C1_witness :
    (processReportData exC1).transactionCount = exC1.length ∧
    (processReportData exC1).totalSpent = none ∧
    (processReportData exC1).averageTransaction = none := by
  obtain ⟨h1, h2⟩ := C1_amended exC1
  obtain ⟨h3, h4⟩ := h2 exBadRec (by decide) rfl
  exact ⟨h1, h3, h4⟩

/-- C2, confirmed: when every amount parses, the category totals and the
daily totals each sum exactly (over rationals) to totalSpent. -/
theorem C2_sum_invariant (l : List ExpenseRecord)
    (h : ∀ r ∈ l, (r.amount).isSome = true) :
    sumVals (processReportData l).categoryTotals =
      (processReportData l).totalSpent ∧
    sumVals (processReportData l).dailyTotals =
      (processReportData l).totalSpent := by
  have hts : (processReportData l).totalSpent = some (amtsum l) := by
    rw [processReportData_totalSpent, foldl_jaddAmt_some l h 0, zero_add]
  have hnil : allSome ([] : List (String × JsNum)) := by
    intro p hp
    cases hp
  constructor
  · rw [processReportData_categoryTotals, hts,
      sumVals_eq_qsum _ (allSome_accMap _ l [] h hnil),
      qsum_accMap _ l [] h]
    rw [qsum_nil, zero_add]
  · rw [processReportData_dailyTotals, hts,
      sumVals_eq_qsum _ (allSome_accMap _ l [] h hnil),
      qsum_accMap _ l [] h]
    rw [qsum_nil, zero_add]

/-- Witness for C2: the invariant evaluated on three concrete records
spanning two categories and two days. -/
theorem C2_witness :
    sumVals (processReportData exC2).categoryTotals =
      (processReportData exC2).totalSpent ∧
    sumVals (processReportData exC2).dailyTotals =
      (processReportData exC2).totalSpent :=
  C2_sum_invariant exC2 (by decide)

/-- A NaN record and a parsable record in the same category. -/
def exNaNRec : ExpenseRecord := ⟨11, none, "food", ⟨2024, 3, 15⟩, "x"⟩

/-- The parsable companion of exNaNRec. -/
def exNumRec : ExpenseRecord := ⟨12, some 5, "food", ⟨2024, 3, 15⟩, "y"⟩

/-- NaN first, number second. -/
def exC3a : List ExpenseRecord := [exNaNRec, exNumRec]

/-- Number first, NaN second: a permutation of exC3a. -/
def exC3b : List ExpenseRecord := [exNumRec, exNaNRec]

/-- C3, corrected. Counterexample to the claim as stated: the two orders of
the same two records (one NaN amount, one parsable, same category) are
permutations of each other, yet their category totals differ — NaN first
gives food = 5 (the NaN is flushed to 0 by the || 0 coercion before the 5 is
added), number first gives food = NaN. -/
theorem C3_counterexample :
    exC3a.Perm exC3b ∧
    alookup (processReportData exC3a).categoryTotals "food" ≠
      alookup (processReportData exC3b).categoryTotals "food" := by
  constructor
  · exact List.Perm.swap exNumRec exNaNRec []
  · decide

/-- C3, corrected (amended claim): when every amount parses, the summary is
permutation-invariant — equal totalSpent, transactionCount and
averageTransaction, and extensionally equal categoryTotals and dailyTotals
mappings (key insertion order may still differ). -/
theorem C3_amended (l1 l2 : List ExpenseRecord) (hperm : l1.Perm l2)
    (h1 : ∀ r ∈ l1, (r.amount).isSome = true) :
    (processReportData l1).totalSpent = (processReportData l2).totalSpent ∧
    (processReportData l1).transactionCount =
      (processReportData l2).transactionCount ∧
    (processReportData l1).averageTransaction =
      (processReportData l2).averageTransaction ∧
    (∀ k, alookup (processReportData l1).categoryTotals k =
      alookup (processReportData l2).categoryTotals k) ∧
    (∀ k, alookup (processReportData l1).dailyTotals k =
      alookup (processReportData l2).dailyTotals k) := by
  have h2 : ∀ r ∈ l2, (r.amount).isSome = true :=
    fun r hr => h1 r (hperm.mem_iff.mpr hr)
  have hsum : amtsum l1 = amtsum l2 := by
    unfold amtsum
    exact (hperm.map _).sum_eq
  have hlen : l1.length = l2.length := hperm.length_eq
  have lookup_eq : ∀ (f : ExpenseRecord → String) (k : String),
      (if l1.filter (fun r => f r == k) = [] then none
        else some (some (amtsum (l1.filter (fun r => f r == k))))) =
      (if l2.filter (fun r => f r == k) = [] then (none : Option JsNum)
        else some (some (amtsum (l2.filter (fun r => f r == k))))) := by
    intro f k
    have hf : (l1.filter (fun r => f r == k)).Perm
        (l2.filter (fun r => f r == k)) := hperm.filter _
    by_cases he : l1.filter (fun r => f r == k) = []
    · have he2 : l2.filter (fun r => f r == k) = [] := by
        rw [← List.length_eq_zero, ← hf.length_eq, he]
        rfl
      rw [if_pos he, if_pos he2]
    · have he2 : ¬ l2.filter (fun r => f r == k) = [] := by
        intro hc
        exact he (by rw [← List.length_eq_zero, hf.length_eq, hc]; rfl)
      rw [if_neg he, if_neg he2]
      have hs : amtsum (l1.filter (fun r => f r == k)) =
          amtsum (l2.filter (fun r => f r == k)) := by
        unfold amtsum
        exact (hf.map _).sum_eq
      rw [hs]
  refine ⟨?_, ?_, ?_, ?_, ?_⟩
  · rw [processReportData_totalSpent, processReportData_totalSpent,
      foldl_jaddAmt_some l1 h1 0, foldl_jaddAmt_some l2 h2 0, hsum]
  · rw [processReportData_count, processReportData_count, hlen]
  · rw [processReportData_avg, processReportData_avg,
      foldl_jaddAmt_some l1 h1 0, foldl_jaddAmt_some l2 h2 0, hsum, hlen]
  · intro k
    rw [alookup_processReportData_cat l1 h1 k,
      alookup_processReportData_cat l2 h2 k]
    exact lookup_eq (fun r => r.category) k
  · intro k
    rw [alookup_processReportData_daily l1 h1 k,
      alookup_processReportData_daily l2 h2 k]
    exact lookup_eq (fun r => toLocaleDateString r.date) k

/-- A second parsable record, category travel. -/
def exTravelRec : ExpenseRecord := ⟨3, some 7, "travel", ⟨2024, 3, 16⟩, "z"⟩

/-- Two parsable records in one order ... -/
def exC3w1 : List ExpenseRecord := [exGoodRec, exTravelRec]

/-- ... and in the swapped order. -/
def exC3w2 : List ExpenseRecord := [exTravelRec, exGoodRec]

/-- Witness for C3: the amended claim evaluated on a concrete swap of two
parsable records. -/
theorem C3_witness :
    (processReportData exC3w1).totalSpent =
      (processReportData exC3w2).totalSpent ∧
    alookup (processReportData exC3w1).categoryTotals "food" =
      alookup (processReportData exC3w2).categoryTotals "food" := by
  obtain ⟨ha, hb, hc, hd, he⟩ :=
    C3_amended exC3w1 exC3w2 (List.Perm.swap exTravelRec exGoodRec []) (by decide)
  exact ⟨ha, hd "food"⟩

/-- A summary whose daily keys sort differently as strings than as dates. -/
def exS4 : ReportSummary :=
  ⟨some 30, [("food", some 30)],
   [("3/5/2025", some 10), ("10/1/2025", some 20)], 2, some 15⟩

/-- C4, corrected. Counterexample to the claim as stated: both daily keys
parse as calendar dates, yet the emitted labels are not in chronological
order — Object.keys(...).sort() sorts them as strings, putting
"10/1/2025" (October) before "3/5/2025" (March). -/
theorem C4_counterexample :
    (∀ k ∈ exS4.dailyTotals.map Prod.fst, (parseLocaleDate k).isSome = true) ∧
    ¬ ((getDailyTrendData exS4).labels).Pairwise
        (fun a b => dateKeyVal a ≤ dateKeyVal b) := by
  constructor
  · decide
  · decide

/-- C4, corrected (amended claim): getDailyTrendData sorts the dailyTotals
keys ascending as strings (lexicographically, not chronologically); the
label list is a permutation of the key set and the value sequence is
index-aligned with the sorted labels. -/
theorem C4_amended (s : ReportSummary) :
    ((getDailyTrendData s).labels).Pairwise (fun a b => a ≤ b) ∧
    ((getDailyTrendData s).labels).Perm (s.dailyTotals.map Prod.fst) ∧
    (getDailyTrendData s).data =
      ((getDailyTrendData s).labels).map (fun k => jsGet s.dailyTotals k) := by
  refine ⟨?_, jsSortBy_perm _ _, rfl⟩
  have hp := jsSortBy_pairwise strLt (fun x : String => x)
    (s.dailyTotals.map Prod.fst) (fun a _ b _ => strLt_iff a b)
  simpa using hp

/-- The comparator agrees with descending numeric order on parsable
values. -/
theorem cmpCat_iff (p q : String × JsNum) (hp : (p.2).isSome = true)
    (hq : (q.2).isSome = true) :
    cmpCat p q = true ↔ (-((p.2).getD 0) : ℚ) < -((q.2).getD 0) := by
  obtain ⟨a, ha⟩ := Option.isSome_iff_exists.mp hp
  obtain ⟨b, hb⟩ := Option.isSome_iff_exists.mp hq
  simp [cmpCat, ha, hb, neg_lt_neg_iff]

/-- C5, confirmed: on a summary whose totals are all numbers,
getTopCategoriesData returns min 5 |categories| label/value pairs, namely
the first five entries of the stable descending-by-amount reordering of
categoryTotals — descending amounts, with tied amounts kept in their
original key order (the filter clause pins every tie class to its original
relative order). -/
theorem C5_top_categories (catName : String → String) (s : ReportSummary)
    (h : ∀ p ∈ s.categoryTotals, (p.2).isSome = true) :
    ((getTopCategoriesData catName s).labels).length =
      min 5 s.categoryTotals.length ∧
    ((getTopCategoriesData catName s).data).length =
      min 5 s.categoryTotals.length ∧
    ∃ L : List (String × JsNum),
      L.Perm s.categoryTotals ∧
      L.Pairwise (fun a b => (b.2).getD 0 ≤ (a.2).getD 0) ∧
      (∀ v : JsNum, L.filter (fun p => p.2 == v) =
        s.categoryTotals.filter (fun p => p.2 == v)) ∧
      (getTopCategoriesData catName s).labels =
        (L.take 5).map (fun p => catName p.1) ∧
      (getTopCategoriesData catName s).data = (L.take 5).map Prod.snd := by
  have hperm := jsSortBy_perm cmpCat s.categoryTotals
  have hlen : (jsSortBy cmpCat s.categoryTotals).length =
      s.categoryTotals.length := hperm.length_eq
  refine ⟨?_, ?_, jsSortBy cmpCat s.categoryTotals, hperm, ?_, ?_, rfl, rfl⟩
  · simp [getTopCategoriesData, List.length_take, hlen]
  · simp [getTopCategoriesData, List.length_take, hlen]
  · have hmem : ∀ a ∈ s.categoryTotals, ∀ b ∈ s.categoryTotals,
        (cmpCat a b = true ↔
          (fun p : String × JsNum => -((p.2).getD 0) : String × JsNum → ℚ) a <
            (fun p : String × JsNum => -((p.2).getD 0)) b) :=
      fun a ha b hb => cmpCat_iff a b (h a ha) (h b hb)
    have hpw := jsSortBy_pairwise cmpCat
      (fun p : String × JsNum => -((p.2).getD 0)) s.categoryTotals hmem
    refine hpw.imp ?_
    intro a b hab
    exact neg_le_neg_iff.mp hab
  · intro v
    apply jsSortBy_filter
    intro a b hpa hpb
    have ha : a.2 = v := by simpa using hpa
    have hb : b.2 = v := by simpa using hpb
    cases v with
    | none =>
        simp [cmpCat, ha, hb]
    | some q =>
        simp [cmpCat, ha, hb]

/-- The spec's tie-break example: A and B tie at 50 among six categories. -/
def exS5 : ReportSummary :=
  ⟨some 119,
   [("A", some 50), ("B", some 50), ("C", some 10), ("D", some 5),
    ("E", some 3), ("F", some 1)],
   [("3/15/2024", some 119)], 6, some (119 / 6)⟩

/-- Witness for C5: exactly five labels on the six-category tie example. -/
theorem C5_witness :
    ((getTopCategoriesData (fun c => c) exS5).labels).length =
      min 5 exS5.categoryTotals.length :=
  (C5_top_categories (fun c => c) exS5 (by decide)).1

/-- A state holding a non-empty previously displayed summary. -/
def exPriorState : ReportsState :=
  { expenses := [exGoodRec]
    reportData :=
      ⟨some 5, [("food", some 5)], [("3/15/2024", some 5)], 1, some 5⟩
    loading := false
    errorMsg := none }

/-- C9, corrected. Counterexample to the claim as stated: when the fetch
fails, the error is surfaced, but the held summary is not reset to the
empty summary — the previously displayed data is retained. -/
theorem C9_counterexample :
    (fetchReportData exPriorState PeriodTag.month none none
      (Except.error "Network Error")).errorMsg = some "Network Error" ∧
    (fetchReportData exPriorState PeriodTag.month none none
      (Except.error "Network Error")).reportData ≠ emptyReport := by
  constructor
  · rfl
  · decide

/-- C9, corrected (amended claim): on a fetch failure (outside the
incomplete-custom early return), fetchReportData surfaces the error and
clears loading, while expenses and reportData keep their previous values —
the stale summary remains on display. -/
theorem C9_amended (st : ReportsState) (p : PeriodTag)
    (cs ce : Option CalDate) (e : String)
    (h : ¬(p = PeriodTag.custom ∧ (cs = none ∨ ce = none))) :
    fetchReportData st p cs ce (Except.error e) =
      { st with errorMsg := some e, loading := false } := by
  simp only [fetchReportData, if_neg h]

/-- Witness for C9: the amended claim evaluated on a concrete failing
fetch. -/
theorem C9_witness :
    fetchReportData exPriorState PeriodTag.all none none
        (Except.error "offline") =
      { exPriorState with errorMsg := some "offline", loading := false } :=
  C9_amended exPriorState PeriodTag.all none none "offline" (by decide)

/-- The invariant: away from the custom period both custom bounds are
null. -/
def ClearedInv (s : SelState) : Prop :=
  s.period ≠ PeriodTag.custom → s.customStart = none ∧ s.customEnd = none

theorem stepUi_inv (s : SelState) (e : UiEvent) (hs : ClearedInv s) :
    ClearedInv (stepUi s e) := by
  cases e with
  | selectPeriod p =>
      by_cases hp : p = PeriodTag.custom
      · subst hp
        intro hne
        simp [stepUi] at hne
      · intro _
        simp [stepUi, hp]
  | setStartDate d =>
      by_cases hp : s.period = PeriodTag.custom
      · intro hne
        simp [stepUi, hp] at hne
      · simp only [stepUi, if_neg hp]
        exact hs
  | setEndDate d =>
      by_cases hp : s.period = PeriodTag.custom
      · intro hne
        simp [stepUi, hp] at hne
      · simp only [stepUi, if_neg hp]
        exact hs

theorem foldl_stepUi_inv (evs : List UiEvent) (s : SelState)
    (hs : ClearedInv s) : ClearedInv (evs.foldl stepUi s) := by
  induction evs generalizing s with
  | nil => exact hs
  | cons e t ih => exact ih _ (stepUi_inv s e hs)

/-- C10, confirmed: in every state reachable from the initial state,
whenever the period selector is any non-custom tag both custom bounds are
null, and hence the 'all' period's end date resolves to the current
instant — the custom-end override in the 'all' branch is never exercised. -/
theorem C10_nonCustom_clears (evs : List UiEvent)
    (hp : (runUi evs).period ≠ PeriodTag.custom) :
    (runUi evs).customStart = none ∧ (runUi evs).customEnd = none ∧
    ∀ now, (runUi evs).period = PeriodTag.all →
      allPeriodEnd (runUi evs) now = now := by
  have hinv : ClearedInv (runUi evs) :=
    foldl_stepUi_inv evs initialSelState (fun _ => ⟨rfl, rfl⟩)
  obtain ⟨h1, h2⟩ := hinv hp
  exact ⟨h1, h2, fun now _ => by simp [allPeriodEnd, h2]⟩

/-- Witness for C10: after selecting the 'all' period, the custom end is
null and the 'all' end date is the supplied current instant. -/
theorem C10_witness :
    (runUi [UiEvent.selectPeriod PeriodTag.all]).customEnd = none ∧
    allPeriodEnd (runUi [UiEvent.selectPeriod PeriodTag.all]) ⟨2026, 10, 11⟩ =
      ⟨2026, 10, 11⟩ := by
  obtain ⟨h1, h2, h3⟩ :=
    C10_nonCustom_clears [UiEvent.selectPeriod PeriodTag.all] (by decide)
  exact ⟨h2, h3 _ (by decide)⟩

end FinSight
